import Mathlib

/-!
# ROME workforce time-tracking: verification of the data-access layer

Shallow embedding of the core logic of the ROME repository (a Next.js +
Supabase workforce time-tracking app) together with proofs of the behavioural
properties stated in its specification.

Embedding conventions:
* JavaScript numbers that hold integral millisecond counts are modelled as
  `Int` (`Math.floor(x / n)` becomes `Int.fdiv`, JS `%` becomes `Int.tmod`);
  the one place where the code performs a non-integral division
  (`totalMs / 3_600_000` for hours) is modelled with `ℚ`.
* `Date` parsing and locale formatting are external to the repository, so
  `new Date(s).getTime()` and `toLocaleDateString(..., weekday: "short")`
  are universally-quantified function parameters (`getTime`, `dayName`),
  and calendar dates are day indices (`Int`).
* The dual demo / Supabase modes are modelled side by side: the in-memory
  demo tables become explicit list-valued state, and the PostgREST query
  combinators used by the code (`eq`, `order`, `limit(1).single()`,
  `update().eq(id)`) are modelled by `List.filter`, `List.insertionSort`,
  `single?` and `List.map` over the table rows.  The `workers.pin UNIQUE`
  constraint of the SQL schema (reset.sql) is modelled as a duplicate-pin
  insert failing with Postgres error code 23505.
-/

namespace Rome

/-! ## Duration formatter (`formatDuration`, src supabase lib) -/

/-- `formatDuration(ms)`: `Math.floor` is `Int.fdiv` (floor division) and the
JS `%` operator is `Int.tmod` (truncating remainder), which agree with `Nat`
division/remainder on the non-negative inputs the spec talks about. -/
def formatDuration (ms : Int) : String :=
  let totalSeconds : Int := Int.fdiv ms 1000
  let hours : Int := Int.fdiv totalSeconds 3600
  let minutes : Int := Int.fdiv (Int.tmod totalSeconds 3600) 60
  if hours > 0 then
    toString hours ++ "h " ++ toString minutes ++ "m"
  else
    toString minutes ++ " minutes"

theorem toString_natCast (n : Nat) : toString ((n : Nat) : Int) = toString n := rfl

/-- On a natural-number input, `formatDuration` computes with `Nat` division. -/
theorem formatDuration_natCast (m : Nat) :
    formatDuration (m : Int) =
      (if 0 < m / 1000 / 3600 then
        toString (m / 1000 / 3600) ++ "h " ++ toString (m / 1000 % 3600 / 60) ++ "m"
      else
        toString (m / 1000 % 3600 / 60) ++ " minutes") := by
  unfold formatDuration
  dsimp only
  rw [show ((1000 : Int)) = ((1000 : Nat) : Int) from rfl, ← Int.ofNat_fdiv]
  rw [show ((3600 : Int)) = ((3600 : Nat) : Int) from rfl, ← Int.ofNat_tmod, ← Int.ofNat_fdiv]
  rw [show ((60 : Int)) = ((60 : Nat) : Int) from rfl, ← Int.ofNat_fdiv]
  by_cases h : 0 < m / 1000 / 3600
  · rw [if_pos (by exact_mod_cast h), if_pos h]
    simp only [toString_natCast]
  · rw [if_neg (by exact_mod_cast h), if_neg h]
    simp only [toString_natCast]

/-- C3: for every non-negative integer millisecond input, `formatDuration`
returns `"{hours}h {minutes}m"` when the input is at least one hour and
`"{minutes} minutes"` otherwise, with hours and minutes computed strictly by
floor (never rounding up); in particular `formatDuration 3599999 =
"59 minutes"` and `formatDuration 3600000 = "1h 0m"`. -/
theorem formatDuration_floor :
    (∀ ms : Nat, 3600000 ≤ ms →
      formatDuration (ms : Int) =
        toString (ms / 3600000) ++ "h " ++ toString (ms % 3600000 / 60000) ++ "m")
    ∧ (∀ ms : Nat, ms < 3600000 →
      formatDuration (ms : Int) = toString (ms / 60000) ++ " minutes")
    ∧ formatDuration 3599999 = "59 minutes"
    ∧ formatDuration 3600000 = "1h 0m" := by
  have hdd : ∀ ms : Nat, ms / 1000 / 3600 = ms / 3600000 := by
    intro ms
    rw [Nat.div_div_eq_div_mul]
  have hmm : ∀ ms : Nat, ms / 1000 % 3600 / 60 = ms % 3600000 / 60000 := by
    intro ms
    rw [← Nat.mod_mul_right_div_self, Nat.div_div_eq_div_mul]
  refine ⟨?_, ?_, ?_, ?_⟩
  · intro ms h
    rw [formatDuration_natCast, hdd, hmm, if_pos (Nat.div_pos h (by norm_num))]
  · intro ms h
    rw [formatDuration_natCast, hdd, hmm,
      if_neg (by rw [Nat.div_eq_of_lt h]; exact lt_irrefl 0),
      Nat.mod_eq_of_lt (by omega)]
  · rw [show ((3599999 : Int)) = ((3599999 : Nat) : Int) from rfl, formatDuration_natCast]
    norm_num
    rfl
  · rw [show ((3600000 : Int)) = ((3600000 : Nat) : Int) from rfl, formatDuration_natCast]
    norm_num
    rfl

/-- Witness for C3: `formatDuration` at two hours. -/
theorem formatDuration_floor_witness :
    formatDuration ((7200000 : Nat) : Int) =
      toString (7200000 / 3600000) ++ "h " ++ toString (7200000 % 3600000 / 60000) ++ "m" :=
  formatDuration_floor.1 7200000 (by norm_num)

/-! ## Punch-pairing engine (`getPunchHistory`, Supabase branch)

The fetched rows arrive ordered by `timestamp` ascending; the code groups
them into a `Map` keyed by the date segment of the timestamp
(`timestamp.split("T")[0]`), pushing each timestamp onto the `ins` or `outs`
list of its date, then emits one `PunchPair` per key and sorts the result by
date descending (`b.date.localeCompare(a.date)`). -/

inductive PunchType where
  | IN : PunchType
  | OUT : PunchType
deriving DecidableEq, Repr

structure Punch where
  type : PunchType
  timestamp : String
deriving DecidableEq, Repr

structure PunchPair where
  date : String
  clockIn : Option String
  clockOut : Option String
  totalMs : Int
deriving DecidableEq, Repr

/-- `timestamp.split("T")[0]`: the characters before the first `T`. -/
def splitDateT (s : String) : String :=
  String.mk (s.data.takeWhile (fun c => c != 'T'))

/-- One entry of the `punchMap`: a date key with its `ins` and `outs` lists. -/
structure DayEntry where
  date : String
  ins : List String
  outs : List String
deriving DecidableEq, Repr

/-- Insert one punch into the `punchMap` (a JS `Map`, i.e. an association
list in key-insertion order): a new date key is appended at the end, and the
timestamp is pushed onto the back of the `ins` or `outs` list of its date. -/
def addPunch (d ts : String) (isIn : Bool) : List DayEntry → List DayEntry
  | [] => [⟨d, if isIn then [ts] else [], if isIn then [] else [ts]⟩]
  | e :: rest =>
    if e.date = d then
      ⟨e.date, if isIn then e.ins ++ [ts] else e.ins,
        if isIn then e.outs else e.outs ++ [ts]⟩ :: rest
    else
      e :: addPunch d ts isIn rest

/-- The grouping loop `for (const punch of data) { ... }`. -/
def buildPunchMap (punches : List Punch) : List DayEntry :=
  punches.foldl
    (fun m p => addPunch (splitDateT p.timestamp) p.timestamp (p.type == PunchType.IN) m) []

/-- Reduce one date's entry to a `PunchPair`: `clockIn = ins[0] || null`,
`clockOut = outs[outs.length - 1] || null`, `totalMs` the difference of the
parsed timestamps when both ends are present and `0` otherwise.  `getTime`
stands for `new Date(s).getTime()`. -/
def pairOfEntry (getTime : String → Int) (e : DayEntry) : PunchPair :=
  let clockIn := e.ins.head?
  let clockOut := e.outs.getLast?
  let totalMs : Int :=
    match clockIn, clockOut with
    | some i, some o => getTime o - getTime i
    | _, _ => 0
  ⟨e.date, clockIn, clockOut, totalMs⟩

/-- `history.sort((a, b) => b.date.localeCompare(a.date))`: date descending. -/
def dateDesc (a b : PunchPair) : Prop := b.date ≤ a.date

instance : DecidableRel dateDesc := fun a b =>
  inferInstanceAs (Decidable (b.date ≤ a.date))

instance : IsTotal PunchPair dateDesc := ⟨fun a b => le_total b.date a.date⟩

instance : IsTrans PunchPair dateDesc := ⟨fun _ _ _ h1 h2 => le_trans h2 h1⟩

/-- `getPunchHistory` (Supabase branch), applied to the fetched rows. -/
def getPunchHistory (getTime : String → Int) (punches : List Punch) : List PunchPair :=
  ((buildPunchMap punches).map (pairOfEntry getTime)).insertionSort dateDesc

/-- The IN timestamps of date `d`, in fetch order. -/
def insOf (punches : List Punch) (d : String) : List String :=
  (punches.filter (fun p => splitDateT p.timestamp == d && p.type == PunchType.IN)).map
    Punch.timestamp

/-- The OUT timestamps of date `d`, in fetch order. -/
def outsOf (punches : List Punch) (d : String) : List String :=
  (punches.filter (fun p => splitDateT p.timestamp == d && p.type == PunchType.OUT)).map
    Punch.timestamp

/-- The `ins` list stored under key `d`, or `[]` if the key is absent. -/
def insCont (m : List DayEntry) (d : String) : List String :=
  match m.find? (fun e => e.date == d) with
  | some e => e.ins
  | none => []

/-- The `outs` list stored under key `d`, or `[]` if the key is absent. -/
def outsCont (m : List DayEntry) (d : String) : List String :=
  match m.find? (fun e => e.date == d) with
  | some e => e.outs
  | none => []

theorem addPunch_map_date (d ts : String) (b : Bool) (m : List DayEntry) :
    (addPunch d ts b m).map DayEntry.date =
      if d ∈ m.map DayEntry.date then m.map DayEntry.date
      else m.map DayEntry.date ++ [d] := by
  induction m with
  | nil => simp [addPunch]
  | cons e rest ih =>
    by_cases h : e.date = d
    · simp [addPunch, h]
    · simp only [addPunch, if_neg h, List.map_cons, ih]
      by_cases hd : d ∈ rest.map DayEntry.date
      · rw [if_pos hd, if_pos (by simp [hd])]
      · have hne : d ∉ DayEntry.date e :: rest.map DayEntry.date := by
          intro hmem
          rcases List.mem_cons.mp hmem with hEq | hmem2
          · exact h hEq.symm
          · exact hd hmem2
        rw [if_neg hd, if_neg hne, List.cons_append]

theorem insCont_nil (d' : String) : insCont [] d' = [] := rfl

theorem outsCont_nil (d' : String) : outsCont [] d' = [] := rfl

theorem insCont_cons (e : DayEntry) (rest : List DayEntry) (d' : String) :
    insCont (e :: rest) d' = if e.date = d' then e.ins else insCont rest d' := by
  by_cases h : e.date = d'
  · rw [if_pos h]
    unfold insCont
    rw [List.find?_cons_of_pos _ (by simp [h])]
  · rw [if_neg h]
    unfold insCont
    rw [List.find?_cons_of_neg _ (by simp [h])]

theorem outsCont_cons (e : DayEntry) (rest : List DayEntry) (d' : String) :
    outsCont (e :: rest) d' = if e.date = d' then e.outs else outsCont rest d' := by
  by_cases h : e.date = d'
  · rw [if_pos h]
    unfold outsCont
    rw [List.find?_cons_of_pos _ (by simp [h])]
  · rw [if_neg h]
    unfold outsCont
    rw [List.find?_cons_of_neg _ (by simp [h])]

theorem insCont_addPunch (d ts : String) (b : Bool) (m : List DayEntry) (d' : String) :
    insCont (addPunch d ts b m) d' =
      insCont m d' ++ (if d' = d ∧ b = true then [ts] else []) := by
  induction m with
  | nil =>
    simp only [addPunch, insCont_cons, insCont_nil]
    by_cases hd : d = d'
    · subst hd
      cases b <;> simp
    · have hd' : ¬ d' = d := fun hEq => hd hEq.symm
      cases b <;> simp [hd, hd']
  | cons e rest ih =>
    simp only [addPunch]
    by_cases h : e.date = d
    · simp only [if_pos h, insCont_cons]
      by_cases hd' : e.date = d'
      · have hdd' : d' = d := hd' ▸ h
        cases b <;> simp [hd', hdd']
      · have hne : ¬ d' = d := fun hEq => hd' (h.trans hEq.symm)
        cases b <;> simp [hd', hne]
    · simp only [if_neg h, insCont_cons]
      by_cases he' : e.date = d'
      · have hne : ¬ d' = d := fun hEq => h (he'.trans hEq)
        cases b <;> simp [he', hne]
      · simp only [if_neg he']
        exact ih

theorem outsCont_addPunch (d ts : String) (b : Bool) (m : List DayEntry) (d' : String) :
    outsCont (addPunch d ts b m) d' =
      outsCont m d' ++ (if d' = d ∧ b = false then [ts] else []) := by
  induction m with
  | nil =>
    simp only [addPunch, outsCont_cons, outsCont_nil]
    by_cases hd : d = d'
    · subst hd
      cases b <;> simp
    · have hd' : ¬ d' = d := fun hEq => hd hEq.symm
      cases b <;> simp [hd, hd']
  | cons e rest ih =>
    simp only [addPunch]
    by_cases h : e.date = d
    · simp only [if_pos h, outsCont_cons]
      by_cases hd' : e.date = d'
      · have hdd' : d' = d := hd' ▸ h
        cases b <;> simp [hd', hdd']
      · have hne : ¬ d' = d := fun hEq => hd' (h.trans hEq.symm)
        cases b <;> simp [hd', hne]
    · simp only [if_neg h, outsCont_cons]
      by_cases he' : e.date = d'
      · have hne : ¬ d' = d := fun hEq => h (he'.trans hEq)
        cases b <;> simp [he', hne]
      · simp only [if_neg he']
        exact ih

theorem insOf_cons (p : Punch) (ps : List Punch) (d : String) :
    insOf (p :: ps) d =
      (if d = splitDateT p.timestamp ∧ (p.type == PunchType.IN) = true
        then [p.timestamp] else []) ++ insOf ps d := by
  by_cases h1 : splitDateT p.timestamp = d
  · subst h1
    by_cases h2 : p.type = PunchType.IN
    · simp [insOf, List.filter_cons, h2]
    · simp [insOf, List.filter_cons, h2]
  · have h1' : ¬ d = splitDateT p.timestamp := fun hEq => h1 hEq.symm
    simp [insOf, List.filter_cons, h1, h1']

theorem outsOf_cons (p : Punch) (ps : List Punch) (d : String) :
    outsOf (p :: ps) d =
      (if d = splitDateT p.timestamp ∧ (p.type == PunchType.IN) = false
        then [p.timestamp] else []) ++ outsOf ps d := by
  by_cases h1 : splitDateT p.timestamp = d
  · subst h1
    by_cases h2 : p.type = PunchType.IN
    · simp [outsOf, List.filter_cons, h2]
    · have h2' : p.type = PunchType.OUT := by cases hp : p.type <;> simp_all
      simp [outsOf, List.filter_cons, h2']
  · have h1' : ¬ d = splitDateT p.timestamp := fun hEq => h1 hEq.symm
    simp [outsOf, List.filter_cons, h1, h1']

theorem insCont_foldl (ps : List Punch) : ∀ (m : List DayEntry) (d : String),
    insCont (ps.foldl (fun m p =>
        addPunch (splitDateT p.timestamp) p.timestamp (p.type == PunchType.IN) m) m) d =
      insCont m d ++ insOf ps d := by
  induction ps with
  | nil =>
    intro m d
    simp [insOf]
  | cons p ps ih =>
    intro m d
    rw [List.foldl_cons, ih, insCont_addPunch, List.append_assoc]
    congr 1
    rw [insOf_cons]

theorem outsCont_foldl (ps : List Punch) : ∀ (m : List DayEntry) (d : String),
    outsCont (ps.foldl (fun m p =>
        addPunch (splitDateT p.timestamp) p.timestamp (p.type == PunchType.IN) m) m) d =
      outsCont m d ++ outsOf ps d := by
  induction ps with
  | nil =>
    intro m d
    simp [outsOf]
  | cons p ps ih =>
    intro m d
    rw [List.foldl_cons, ih, outsCont_addPunch, List.append_assoc]
    congr 1
    rw [outsOf_cons]

theorem insCont_buildPunchMap (ps : List Punch) (d : String) :
    insCont (buildPunchMap ps) d = insOf ps d := by
  have h := insCont_foldl ps [] d
  rw [insCont_nil, List.nil_append] at h
  exact h

theorem outsCont_buildPunchMap (ps : List Punch) (d : String) :
    outsCont (buildPunchMap ps) d = outsOf ps d := by
  have h := outsCont_foldl ps [] d
  rw [outsCont_nil, List.nil_append] at h
  exact h

theorem mem_date_foldl (ps : List Punch) : ∀ (m : List DayEntry) (d : String),
    (d ∈ (ps.foldl (fun m p =>
        addPunch (splitDateT p.timestamp) p.timestamp (p.type == PunchType.IN) m) m).map
          DayEntry.date) ↔
      d ∈ m.map DayEntry.date ∨ d ∈ ps.map (fun p => splitDateT p.timestamp) := by
  induction ps with
  | nil =>
    intro m d
    simp
  | cons p ps ih =>
    intro m d
    rw [List.foldl_cons, ih, addPunch_map_date]
    by_cases h : splitDateT p.timestamp ∈ m.map DayEntry.date
    · rw [if_pos h]
      simp only [List.map_cons, List.mem_cons]
      constructor
      · rintro (hm | hp)
        · exact Or.inl hm
        · exact Or.inr (Or.inr hp)
      · rintro (hm | rfl | hp)
        · exact Or.inl hm
        · exact Or.inl h
        · exact Or.inr hp
    · rw [if_neg h]
      simp only [List.mem_append, List.mem_singleton, List.map_cons, List.mem_cons]
      tauto

theorem nodup_date_foldl (ps : List Punch) : ∀ (m : List DayEntry),
    (m.map DayEntry.date).Nodup →
    ((ps.foldl (fun m p =>
        addPunch (splitDateT p.timestamp) p.timestamp (p.type == PunchType.IN) m) m).map
          DayEntry.date).Nodup := by
  induction ps with
  | nil =>
    intro m h
    simpa using h
  | cons p ps ih =>
    intro m h
    rw [List.foldl_cons]
    apply ih
    rw [addPunch_map_date]
    by_cases hm : splitDateT p.timestamp ∈ m.map DayEntry.date
    · rwa [if_pos hm]
    · rw [if_neg hm]
      simp [List.nodup_append, h, hm]

theorem nodup_date_buildPunchMap (ps : List Punch) :
    ((buildPunchMap ps).map DayEntry.date).Nodup :=
  nodup_date_foldl ps [] (by simp)

theorem mem_date_buildPunchMap (ps : List Punch) (d : String) :
    d ∈ (buildPunchMap ps).map DayEntry.date ↔
      d ∈ ps.map (fun p => splitDateT p.timestamp) := by
  have h := mem_date_foldl ps [] d
  simpa using h

theorem find?_date_of_mem {m : List DayEntry} (hn : (m.map DayEntry.date).Nodup)
    {e : DayEntry} (he : e ∈ m) :
    m.find? (fun x => x.date == e.date) = some e := by
  induction m with
  | nil => cases he
  | cons f rest ih =>
    rcases List.mem_cons.mp he with rfl | hmem
    · exact List.find?_cons_of_pos _ (by simp)
    · have hf : f.date ≠ e.date := by
        intro hEq
        have hmm : e.date ∈ rest.map DayEntry.date := List.mem_map_of_mem _ hmem
        rw [List.map_cons, List.nodup_cons] at hn
        exact hn.1 (hEq ▸ hmm)
      rw [List.find?_cons_of_neg _ (by simp [hf])]
      rw [List.map_cons, List.nodup_cons] at hn
      exact ih hn.2 hmem

theorem buildPunchMap_entry (ps : List Punch) {e : DayEntry} (he : e ∈ buildPunchMap ps) :
    e.ins = insOf ps e.date ∧ e.outs = outsOf ps e.date := by
  have hf := find?_date_of_mem (nodup_date_buildPunchMap ps) he
  constructor
  · have h2 : insCont (buildPunchMap ps) e.date = e.ins := by
      unfold insCont
      rw [hf]
    exact h2.symm.trans (insCont_buildPunchMap ps e.date)
  · have h2 : outsCont (buildPunchMap ps) e.date = e.outs := by
      unfold outsCont
      rw [hf]
    exact h2.symm.trans (outsCont_buildPunchMap ps e.date)

/-- The fetch orders rows by `timestamp` ascending (ISO strings, so
lexicographic order is chronological order). -/
def TimeOrdered (ps : List Punch) : Prop :=
  (ps.map Punch.timestamp).Sorted (· ≤ ·)

theorem string_le_of_toList {a b : String} (h : a.toList ≤ b.toList) : a ≤ b :=
  String.le_iff_toList_le.mpr h

theorem pairwise_le_three {a b c : String} (h1 : a ≤ b) (h2 : a ≤ c) (h3 : b ≤ c) :
    List.Pairwise (fun x y : String => x ≤ y) [a, b, c] := by
  refine List.Pairwise.cons ?_ (List.Pairwise.cons ?_ (List.pairwise_singleton _ _))
  · intro z hz
    rcases List.mem_cons.mp hz with rfl | hz2
    · exact h1
    · rcases List.mem_singleton.mp hz2 with rfl
      exact h2
  · intro z hz
    rcases List.mem_singleton.mp hz with rfl
    exact h3

instance (ps : List Punch) : Decidable (TimeOrdered ps) :=
  inferInstanceAs (Decidable ((ps.map Punch.timestamp).Sorted (· ≤ ·)))

/-- C1: for every worker and every fetched time-ordered punch sequence,
`getPunchHistory` produces exactly one `PunchPair` per distinct calendar date
that has at least one punch (dates with no punches are never emitted), where
`clockIn` is the first IN of that date or null if none, `clockOut` is the
last OUT of that date or null if none, `totalMs` equals `clockOut - clockIn`
when both are present (a negative difference is passed through, not clamped)
and `0` otherwise, and the resulting list is sorted by date descending. -/
theorem getPunchHistory_spec (getTime : String → Int) (ps : List Punch)
    (_hord : TimeOrdered ps) :
    ((getPunchHistory getTime ps).map PunchPair.date).Nodup
    ∧ (∀ d : String,
        d ∈ (getPunchHistory getTime ps).map PunchPair.date ↔
          d ∈ ps.map (fun p => splitDateT p.timestamp))
    ∧ (∀ pr ∈ getPunchHistory getTime ps,
        pr.clockIn = (insOf ps pr.date).head?
        ∧ pr.clockOut = (outsOf ps pr.date).getLast?
        ∧ pr.totalMs = (match pr.clockIn, pr.clockOut with
            | some i, some o => getTime o - getTime i
            | _, _ => (0 : Int)))
    ∧ (getPunchHistory getTime ps).Pairwise (fun a b => b.date < a.date) := by
  clear _hord
  have hperm : List.Perm (getPunchHistory getTime ps)
      ((buildPunchMap ps).map (pairOfEntry getTime)) :=
    List.perm_insertionSort _ _
  have hdates : ((buildPunchMap ps).map (pairOfEntry getTime)).map PunchPair.date =
      (buildPunchMap ps).map DayEntry.date := by
    rw [List.map_map]
    rfl
  have hnd : ((getPunchHistory getTime ps).map PunchPair.date).Nodup := by
    rw [(hperm.map PunchPair.date).nodup_iff, hdates]
    exact nodup_date_buildPunchMap ps
  refine ⟨hnd, ?_, ?_, ?_⟩
  · intro d
    rw [(hperm.map PunchPair.date).mem_iff, hdates]
    exact mem_date_buildPunchMap ps d
  · intro pr hpr
    have hpr2 : pr ∈ (buildPunchMap ps).map (pairOfEntry getTime) := hperm.mem_iff.mp hpr
    rcases List.mem_map.mp hpr2 with ⟨e, he, rfl⟩
    rcases buildPunchMap_entry ps he with ⟨hins, houts⟩
    refine ⟨?_, ?_, ?_⟩
    · show e.ins.head? = (insOf ps e.date).head?
      rw [hins]
    · show e.outs.getLast? = (outsOf ps e.date).getLast?
      rw [houts]
    · rfl
  · have hs : (getPunchHistory getTime ps).Sorted dateDesc :=
      List.sorted_insertionSort dateDesc _
    have hne : (getPunchHistory getTime ps).Pairwise (fun a b => a.date ≠ b.date) :=
      List.pairwise_map.mp hnd
    exact (hs.and hne).imp fun h => lt_of_le_of_ne h.1 fun hEq => h.2 hEq.symm

/-- Witness for C1: a three-punch fetch spanning two dates. -/
theorem getPunchHistory_spec_witness :
    TimeOrdered
      [⟨PunchType.IN, "2024-01-02T08:00:00"⟩, ⟨PunchType.OUT, "2024-01-02T16:00:00"⟩,
        ⟨PunchType.IN, "2024-01-03T09:00:00"⟩] ∧
    (((getPunchHistory (fun _ => 0)
      [⟨PunchType.IN, "2024-01-02T08:00:00"⟩, ⟨PunchType.OUT, "2024-01-02T16:00:00"⟩,
        ⟨PunchType.IN, "2024-01-03T09:00:00"⟩]).map PunchPair.date).Nodup
    ∧ (∀ d : String,
        d ∈ (getPunchHistory (fun _ => 0)
          [⟨PunchType.IN, "2024-01-02T08:00:00"⟩, ⟨PunchType.OUT, "2024-01-02T16:00:00"⟩,
            ⟨PunchType.IN, "2024-01-03T09:00:00"⟩]).map PunchPair.date ↔
          d ∈ [⟨PunchType.IN, "2024-01-02T08:00:00"⟩, ⟨PunchType.OUT, "2024-01-02T16:00:00"⟩,
            (⟨PunchType.IN, "2024-01-03T09:00:00"⟩ : Punch)].map
              (fun p => splitDateT p.timestamp))
    ∧ (∀ pr ∈ getPunchHistory (fun _ => 0)
        [⟨PunchType.IN, "2024-01-02T08:00:00"⟩, ⟨PunchType.OUT, "2024-01-02T16:00:00"⟩,
          ⟨PunchType.IN, "2024-01-03T09:00:00"⟩],
        pr.clockIn = (insOf
          [⟨PunchType.IN, "2024-01-02T08:00:00"⟩, ⟨PunchType.OUT, "2024-01-02T16:00:00"⟩,
            ⟨PunchType.IN, "2024-01-03T09:00:00"⟩] pr.date).head?
        ∧ pr.clockOut = (outsOf
          [⟨PunchType.IN, "2024-01-02T08:00:00"⟩, ⟨PunchType.OUT, "2024-01-02T16:00:00"⟩,
            ⟨PunchType.IN, "2024-01-03T09:00:00"⟩] pr.date).getLast?
        ∧ pr.totalMs = (match pr.clockIn, pr.clockOut with
            | some i, some o => (fun _ => (0 : Int)) o - (fun _ => (0 : Int)) i
            | _, _ => (0 : Int)))
    ∧ (getPunchHistory (fun _ => 0)
        [⟨PunchType.IN, "2024-01-02T08:00:00"⟩, ⟨PunchType.OUT, "2024-01-02T16:00:00"⟩,
          ⟨PunchType.IN, "2024-01-03T09:00:00"⟩]).Pairwise (fun a b => b.date < a.date)) :=
  ⟨pairwise_le_three (string_le_of_toList (by decide)) (string_le_of_toList (by decide))
      (string_le_of_toList (by decide)),
    getPunchHistory_spec (fun _ => 0)
      [⟨PunchType.IN, "2024-01-02T08:00:00"⟩, ⟨PunchType.OUT, "2024-01-02T16:00:00"⟩,
        ⟨PunchType.IN, "2024-01-03T09:00:00"⟩]
      (pairwise_le_three (string_le_of_toList (by decide)) (string_le_of_toList (by decide))
        (string_le_of_toList (by decide)))⟩

/-! ## Weekly hours aggregator (`getWeeklyHours`)

`getWeeklyHours` computes the Monday-anchored week start from `now`
(`now.getDate() - (dayOfWeek === 0 ? 6 : dayOfWeek - 1)`, hours zeroed),
fetches 7 days of punch pairs, and accumulates `totalMs` and per-weekday
hours over the pairs whose date is on or after the week start.  Calendar
days are modelled as day indices (`Int`): `dayNum` stands for
`new Date(punch.date)` (compared against the week start) and `dayName` for
`toLocaleDateString("en-US", { weekday: "short" })`.  JS float arithmetic on
hours is modelled with `ℚ`. -/

structure WeeklyResult where
  totalMs : Int
  totalHours : ℚ
  dailyHours : List (String × ℚ)
deriving DecidableEq, Repr

/-- `dailyHours[k]`, with `0` for an absent key (`dailyHours[k] || 0`). -/
def lookupHours (m : List (String × ℚ)) (k : String) : ℚ :=
  match m.find? (fun e => e.1 == k) with
  | some e => e.2
  | none => 0

/-- `dailyHours[k] = (dailyHours[k] || 0) + v`: JS object update, keeping the
key's position if present and appending a new key otherwise. -/
def bumpHours : List (String × ℚ) → String → ℚ → List (String × ℚ)
  | [], k, v => [(k, v)]
  | e :: rest, k, v =>
    if e.1 = k then (e.1, e.2 + v) :: rest
    else e :: bumpHours rest k v

/-- `startOfWeek`: `now - (dayOfWeek === 0 ? 6 : dayOfWeek - 1)` days. -/
def weekStartOf (nowDay : Int) (dayOfWeek : Nat) : Int :=
  nowDay - (if dayOfWeek = 0 then 6 else (dayOfWeek : Int) - 1)

/-- The body of the `for (const punch of result.history)` loop. -/
def weeklyStep (dayNum : String → Int) (dayName : String → String) (weekStart : Int)
    (acc : Int × List (String × ℚ)) (punch : PunchPair) : Int × List (String × ℚ) :=
  if weekStart ≤ dayNum punch.date then
    (acc.1 + punch.totalMs,
      bumpHours acc.2 (dayName punch.date) ((punch.totalMs : ℚ) / (1000 * 60 * 60)))
  else acc

/-- `getWeeklyHours`, applied to the outcome of the 7-day fetch (`none`
models `!result.success || !result.history`). -/
def getWeeklyHours (dayNum : String → Int) (dayName : String → String)
    (nowDay : Int) (dayOfWeek : Nat) (fetched : Option (List PunchPair)) : WeeklyResult :=
  let startOfWeek := weekStartOf nowDay dayOfWeek
  match fetched with
  | none => ⟨0, 0, []⟩
  | some history =>
    let res := history.foldl (weeklyStep dayNum dayName startOfWeek) (0, [])
    ⟨res.1, (res.1 : ℚ) / (1000 * 60 * 60), res.2⟩

theorem lookupHours_nil (k : String) : lookupHours [] k = 0 := rfl

theorem lookupHours_cons (e : String × ℚ) (rest : List (String × ℚ)) (k : String) :
    lookupHours (e :: rest) k = if e.1 = k then e.2 else lookupHours rest k := by
  by_cases h : e.1 = k
  · rw [if_pos h]
    unfold lookupHours
    rw [List.find?_cons_of_pos _ (by simp [h])]
  · rw [if_neg h]
    unfold lookupHours
    rw [List.find?_cons_of_neg _ (by simp [h])]

theorem lookupHours_bumpHours (m : List (String × ℚ)) (k : String) (v : ℚ) (n : String) :
    lookupHours (bumpHours m k v) n =
      lookupHours m n + (if k = n then v else 0) := by
  induction m with
  | nil =>
    rw [show bumpHours [] k v = [(k, v)] from rfl, lookupHours_cons, lookupHours_nil]
    by_cases h : k = n
    · simp [h]
    · simp [h]
  | cons e rest ih =>
    rw [show bumpHours (e :: rest) k v =
      (if e.1 = k then (e.1, e.2 + v) :: rest else e :: bumpHours rest k v) from rfl]
    by_cases h : e.1 = k
    · rw [if_pos h, lookupHours_cons, lookupHours_cons]
      by_cases hn : e.1 = n
      · have hkn : k = n := h ▸ hn
        simp [hn, hkn]
      · have hkn : ¬ k = n := fun hEq => hn (h.symm ▸ hEq ▸ rfl)
        simp [hn, hkn]
    · rw [if_neg h, lookupHours_cons, lookupHours_cons]
      by_cases hn : e.1 = n
      · have hkn : ¬ k = n := fun hEq => h (hn.trans hEq.symm)
        simp [hn, hkn]
      · rw [if_neg hn, if_neg hn, ih]

theorem mem_bumpHours (m : List (String × ℚ)) (k : String) (v : ℚ) (n : String) :
    (∃ hq : ℚ, (n, hq) ∈ bumpHours m k v) ↔ (∃ hq : ℚ, (n, hq) ∈ m) ∨ n = k := by
  induction m with
  | nil =>
    rw [show bumpHours [] k v = [(k, v)] from rfl]
    constructor
    · rintro ⟨hq, hmem⟩
      rcases List.mem_singleton.mp hmem with hEq
      exact Or.inr (congrArg Prod.fst hEq)
    · rintro (⟨hq, hmem⟩ | rfl)
      · cases hmem
      · exact ⟨v, List.mem_singleton.mpr rfl⟩
  | cons e rest ih =>
    rw [show bumpHours (e :: rest) k v =
      (if e.1 = k then (e.1, e.2 + v) :: rest else e :: bumpHours rest k v) from rfl]
    by_cases h : e.1 = k
    · rw [if_pos h]
      constructor
      · rintro ⟨hq, hmem⟩
        rcases List.mem_cons.mp hmem with hEq | hmem2
        · exact Or.inr ((congrArg Prod.fst hEq).trans h)
        · exact Or.inl ⟨hq, List.mem_cons_of_mem _ hmem2⟩
      · rintro (⟨hq, hmem⟩ | rfl)
        · rcases List.mem_cons.mp hmem with hEq | hmem2
          · exact ⟨e.2 + v, by
              rw [show n = e.1 from congrArg Prod.fst hEq]
              exact List.mem_cons_self _ _⟩
          · exact ⟨hq, List.mem_cons_of_mem _ hmem2⟩
        · exact ⟨e.2 + v, by rw [← h]; exact List.mem_cons_self _ _⟩
    · rw [if_neg h]
      constructor
      · rintro ⟨hq, hmem⟩
        rcases List.mem_cons.mp hmem with hEq | hmem2
        · exact Or.inl ⟨hq, hEq ▸ List.mem_cons_self _ _⟩
        · rcases ih.mp ⟨hq, hmem2⟩ with ⟨hq2, hmem3⟩ | hEq
          · exact Or.inl ⟨hq2, List.mem_cons_of_mem _ hmem3⟩
          · exact Or.inr hEq
      · rintro (⟨hq, hmem⟩ | rfl)
        · rcases List.mem_cons.mp hmem with hEq | hmem2
          · exact ⟨hq, hEq ▸ List.mem_cons_self _ _⟩
          · rcases ih.mpr (Or.inl ⟨hq, hmem2⟩) with ⟨hq2, hmem3⟩
            exact ⟨hq2, List.mem_cons_of_mem _ hmem3⟩
        · rcases ih.mpr (Or.inr rfl) with ⟨hq2, hmem3⟩
          exact ⟨hq2, List.mem_cons_of_mem _ hmem3⟩

theorem weeklyStep_foldl_fst (dayNum : String → Int) (dayName : String → String)
    (weekStart : Int) :
    ∀ (hist : List PunchPair) (acc : Int × List (String × ℚ)),
      (hist.foldl (weeklyStep dayNum dayName weekStart) acc).1 =
        acc.1 + ((hist.filter
          (fun p => decide (weekStart ≤ dayNum p.date))).map PunchPair.totalMs).sum := by
  intro hist
  induction hist with
  | nil =>
    intro acc
    simp
  | cons p hist ih =>
    intro acc
    rw [List.foldl_cons, ih]
    by_cases h : weekStart ≤ dayNum p.date
    · rw [List.filter_cons_of_pos (by simpa using h), List.map_cons, List.sum_cons,
        show weeklyStep dayNum dayName weekStart acc p =
          (acc.1 + p.totalMs, bumpHours acc.2 (dayName p.date)
            ((p.totalMs : ℚ) / (1000 * 60 * 60))) from if_pos h]
      ring
    · rw [List.filter_cons_of_neg (by simpa using h),
        show weeklyStep dayNum dayName weekStart acc p = acc from if_neg h]

theorem weeklyStep_foldl_lookup (dayNum : String → Int) (dayName : String → String)
    (weekStart : Int) :
    ∀ (hist : List PunchPair) (acc : Int × List (String × ℚ)) (n : String),
      lookupHours (hist.foldl (weeklyStep dayNum dayName weekStart) acc).2 n =
        lookupHours acc.2 n +
          (((hist.filter (fun p => decide (weekStart ≤ dayNum p.date))).filter
            (fun p => dayName p.date == n)).map
              (fun p => (p.totalMs : ℚ) / (1000 * 60 * 60))).sum := by
  intro hist
  induction hist with
  | nil =>
    intro acc n
    simp
  | cons p hist ih =>
    intro acc n
    rw [List.foldl_cons, ih]
    by_cases h : weekStart ≤ dayNum p.date
    · rw [List.filter_cons_of_pos (by simpa using h)]
      by_cases hn : dayName p.date = n
      · rw [List.filter_cons_of_pos (by simpa using hn), List.map_cons, List.sum_cons,
          show weeklyStep dayNum dayName weekStart acc p =
            (acc.1 + p.totalMs, bumpHours acc.2 (dayName p.date)
              ((p.totalMs : ℚ) / (1000 * 60 * 60))) from if_pos h,
          lookupHours_bumpHours, if_pos hn]
        ring
      · rw [List.filter_cons_of_neg (by simpa using hn),
          show weeklyStep dayNum dayName weekStart acc p =
            (acc.1 + p.totalMs, bumpHours acc.2 (dayName p.date)
              ((p.totalMs : ℚ) / (1000 * 60 * 60))) from if_pos h,
          lookupHours_bumpHours, if_neg hn, add_zero]
    · rw [List.filter_cons_of_neg (by simpa using h),
        show weeklyStep dayNum dayName weekStart acc p = acc from if_neg h]

theorem weeklyStep_foldl_keys (dayNum : String → Int) (dayName : String → String)
    (weekStart : Int) :
    ∀ (hist : List PunchPair) (acc : Int × List (String × ℚ)) (n : String),
      (∃ hq : ℚ, (n, hq) ∈ (hist.foldl (weeklyStep dayNum dayName weekStart) acc).2) ↔
        (∃ hq : ℚ, (n, hq) ∈ acc.2) ∨
          ∃ p ∈ hist.filter (fun p => decide (weekStart ≤ dayNum p.date)),
            dayName p.date = n := by
  intro hist
  induction hist with
  | nil =>
    intro acc n
    simp
  | cons p hist ih =>
    intro acc n
    rw [List.foldl_cons, ih]
    by_cases h : weekStart ≤ dayNum p.date
    · rw [List.filter_cons_of_pos (by simpa using h),
        show weeklyStep dayNum dayName weekStart acc p =
          (acc.1 + p.totalMs, bumpHours acc.2 (dayName p.date)
            ((p.totalMs : ℚ) / (1000 * 60 * 60))) from if_pos h]
      rw [show ((acc.1 + p.totalMs, bumpHours acc.2 (dayName p.date)
        ((p.totalMs : ℚ) / (1000 * 60 * 60))).2) = bumpHours acc.2 (dayName p.date)
          ((p.totalMs : ℚ) / (1000 * 60 * 60)) from rfl, mem_bumpHours]
      simp only [List.mem_cons]
      constructor
      · rintro ((⟨hq, hmem⟩ | hEq) | ⟨q, hq2, hn2⟩)
        · exact Or.inl ⟨hq, hmem⟩
        · exact Or.inr ⟨p, Or.inl rfl, hEq.symm⟩
        · exact Or.inr ⟨q, Or.inr hq2, hn2⟩
      · rintro (⟨hq, hmem⟩ | ⟨q, hq2 | hq2, hn2⟩)
        · exact Or.inl (Or.inl ⟨hq, hmem⟩)
        · exact Or.inl (Or.inr (hq2 ▸ hn2.symm))
        · exact Or.inr ⟨q, hq2, hn2⟩
    · rw [List.filter_cons_of_neg (by simpa using h),
        show weeklyStep dayNum dayName weekStart acc p = acc from if_neg h]

/-- C2: for every worker, `getWeeklyHours` computes the week start as Monday
of the current week (6 days prior when today is Sunday, otherwise today
minus `(weekday_index - 1)` days), keeps only the punch pairs from the
trailing 7-day fetch whose date falls on or after that week start, and
returns `totalMs` as the sum of the kept pairs' `totalMs`, `totalHours`
equal to `totalMs / 3600000`, and a `dailyHours` map keyed by short weekday
name whose entries accumulate additively when a day repeats. -/
theorem getWeeklyHours_spec (dayNum : String → Int) (dayName : String → String)
    (nowDay : Int) (dayOfWeek : Nat) (_hdow : dayOfWeek < 7) (history : List PunchPair) :
    weekStartOf nowDay dayOfWeek =
      nowDay - (if dayOfWeek = 0 then 6 else (dayOfWeek : Int) - 1)
    ∧ (getWeeklyHours dayNum dayName nowDay dayOfWeek (some history)).totalMs =
      ((history.filter (fun p => decide (weekStartOf nowDay dayOfWeek ≤ dayNum p.date))).map
        PunchPair.totalMs).sum
    ∧ (getWeeklyHours dayNum dayName nowDay dayOfWeek (some history)).totalHours =
      ((getWeeklyHours dayNum dayName nowDay dayOfWeek (some history)).totalMs : ℚ) / 3600000
    ∧ (∀ n : String,
        lookupHours (getWeeklyHours dayNum dayName nowDay dayOfWeek (some history)).dailyHours
            n =
          (((history.filter
            (fun p => decide (weekStartOf nowDay dayOfWeek ≤ dayNum p.date))).filter
              (fun p => dayName p.date == n)).map
                (fun p => (p.totalMs : ℚ) / 3600000)).sum)
    ∧ (∀ n : String,
        (∃ hq : ℚ,
          (n, hq) ∈
            (getWeeklyHours dayNum dayName nowDay dayOfWeek (some history)).dailyHours) ↔
          ∃ p ∈ history.filter
            (fun p => decide (weekStartOf nowDay dayOfWeek ≤ dayNum p.date)),
            dayName p.date = n) := by
  clear _hdow
  refine ⟨rfl, ?_, ?_, ?_, ?_⟩
  · show (history.foldl (weeklyStep dayNum dayName (weekStartOf nowDay dayOfWeek)) (0, [])).1 = _
    rw [weeklyStep_foldl_fst]
    simp
  · show ((history.foldl (weeklyStep dayNum dayName (weekStartOf nowDay dayOfWeek))
        (0, [])).1 : ℚ) / (1000 * 60 * 60) = _
    rw [show ((1000 * 60 * 60 : ℚ)) = 3600000 from by norm_num]
    rfl
  · intro n
    show lookupHours
      (history.foldl (weeklyStep dayNum dayName (weekStartOf nowDay dayOfWeek)) (0, [])).2 n = _
    rw [weeklyStep_foldl_lookup]
    simp only [show ((1000 * 60 * 60 : ℚ)) = 3600000 from by norm_num]
    simp [lookupHours_nil]
  · intro n
    show (∃ hq : ℚ, (n, hq) ∈
      (history.foldl (weeklyStep dayNum dayName (weekStartOf nowDay dayOfWeek)) (0, [])).2) ↔ _
    rw [weeklyStep_foldl_keys]
    simp

/-- Witness for C2: a Wednesday with a single fetched pair. -/
theorem getWeeklyHours_spec_witness :
    (3 : Nat) < 7 ∧
    (getWeeklyHours (fun _ => 0) (fun _ => "Mon") 10 3
        (some [⟨"2024-01-08", none, none, 3600000⟩])).totalMs =
      ((([⟨"2024-01-08", none, none, 3600000⟩] :
        List PunchPair).filter
          (fun p => decide (weekStartOf 10 3 ≤ (fun _ => (0 : Int)) p.date))).map
        PunchPair.totalMs).sum :=
  ⟨by norm_num,
    (getWeeklyHours_spec (fun _ => 0) (fun _ => "Mon") 10 3 (by norm_num)
      [⟨"2024-01-08", none, none, 3600000⟩]).2.1⟩

/-! ## Worker authentication (`authenticateWorker`)

The demo store rows have no `is_active` flag; the Supabase query filters
`eq("pin", pin).eq("is_active", true)` and ends in `.single()`, which
succeeds exactly when the filtered result has exactly one row.  The
`workers.pin` column is `UNIQUE` in the schema, so the row set is modelled
with a no-duplicate-pins hypothesis. -/

structure Worker where
  id : String
  pin : String
  full_name : String
  role : String
deriving DecidableEq, Repr

structure DbWorker where
  id : String
  pin : String
  full_name : String
  role : String
  is_active : Bool
deriving DecidableEq, Repr

inductive AuthResult where
  | ok (id full_name role : String) (isAdmin : Bool)
  | err (error : String)
deriving DecidableEq, Repr

def AuthResult.success : AuthResult → Bool
  | .ok _ _ _ _ => true
  | .err _ => false

/-- PostgREST `.single()`: a row when the result set has exactly one row,
an error otherwise. -/
def single? {α : Type} : List α → Option α
  | [a] => some a
  | _ => none

def authenticateWorker (demoMode : Bool) (demoWorkers : List Worker)
    (dbWorkers : List DbWorker) (pin : String) : AuthResult :=
  if pin = "000000" then
    .ok "admin" "Administrator" "admin" true
  else if demoMode then
    match demoWorkers.find? (fun w => w.pin == pin) with
    | some w => .ok w.id w.full_name w.role false
    | none => .err "Invalid PIN. Please try again."
  else
    match single? (dbWorkers.filter (fun w => w.pin == pin && w.is_active)) with
    | some w => .ok w.id w.full_name w.role false
    | none => .err "Invalid PIN. Please try again."

theorem single?_eq_some {α : Type} {l : List α} {a : α} :
    single? l = some a ↔ l = [a] := by
  cases l with
  | nil => simp [single?]
  | cons x xs =>
    cases xs with
    | nil => simp [single?]
    | cons y ys => simp [single?]

theorem filter_pin_length_le (dbWorkers : List DbWorker) (pin : String)
    (hnodup : (dbWorkers.map DbWorker.pin).Nodup) :
    (dbWorkers.filter (fun w => w.pin == pin && w.is_active)).length ≤ 1 := by
  induction dbWorkers with
  | nil => simp
  | cons w rest ih =>
    rw [List.map_cons, List.nodup_cons] at hnodup
    by_cases h : (w.pin == pin && w.is_active) = true
    · rw [List.filter_cons_of_pos (by simpa using h)]
      have hrest : rest.filter (fun w => w.pin == pin && w.is_active) = [] := by
        rw [List.filter_eq_nil_iff]
        intro u hu hua
        simp only [Bool.and_eq_true, beq_iff_eq] at hua h
        apply hnodup.1
        rw [h.1, ← hua.1]
        exact List.mem_map_of_mem _ hu
      rw [hrest]
      simp
    · rw [List.filter_cons_of_neg (by simpa using h)]
      exact ih hnodup.2

theorem single?_eq_none_of_le {α : Type} {l : List α} (hlen : l.length ≤ 1) :
    single? l = none ↔ l = [] := by
  cases l with
  | nil => simp [single?]
  | cons x xs =>
    cases xs with
    | nil => simp [single?]
    | cons y ys => simp at hlen

theorem authenticateWorker_demo (demoWorkers : List Worker) (dbWorkers : List DbWorker)
    (pin : String) (hpin : pin ≠ "000000") :
    authenticateWorker true demoWorkers dbWorkers pin =
      (match demoWorkers.find? (fun w => w.pin == pin) with
      | some w => AuthResult.ok w.id w.full_name w.role false
      | none => AuthResult.err "Invalid PIN. Please try again.") := by
  unfold authenticateWorker
  rw [if_neg hpin, if_pos rfl]

theorem authenticateWorker_live (demoWorkers : List Worker) (dbWorkers : List DbWorker)
    (pin : String) (hpin : pin ≠ "000000") :
    authenticateWorker false demoWorkers dbWorkers pin =
      (match single? (dbWorkers.filter (fun w => w.pin == pin && w.is_active)) with
      | some w => AuthResult.ok w.id w.full_name w.role false
      | none => AuthResult.err "Invalid PIN. Please try again.") := by
  unfold authenticateWorker
  rw [if_neg hpin, if_neg (by simp)]

/-- C4: `authenticateWorker "000000"` always succeeds with a privileged admin
identity without consulting the backing store, in both demo and live mode;
for every other PIN it succeeds exactly when an active worker with that
exact PIN exists, and otherwise fails with an invalid-PIN error.  (In the
demo table every worker is active; the row-level `is_active` flag exists
only in the live store, whose pins are unique by schema.) -/
theorem authenticateWorker_spec (demoMode : Bool) (demoWorkers : List Worker)
    (dbWorkers : List DbWorker) (pin : String)
    (hnodup : (dbWorkers.map DbWorker.pin).Nodup) :
    authenticateWorker demoMode demoWorkers dbWorkers "000000" =
      AuthResult.ok "admin" "Administrator" "admin" true
    ∧ (pin ≠ "000000" →
        ((authenticateWorker true demoWorkers dbWorkers pin).success = true ↔
          ∃ w ∈ demoWorkers, w.pin = pin)
        ∧ (¬ (∃ w ∈ demoWorkers, w.pin = pin) →
          authenticateWorker true demoWorkers dbWorkers pin =
            AuthResult.err "Invalid PIN. Please try again."))
    ∧ (pin ≠ "000000" →
        ((authenticateWorker false demoWorkers dbWorkers pin).success = true ↔
          ∃ w ∈ dbWorkers, w.pin = pin ∧ w.is_active = true)
        ∧ (¬ (∃ w ∈ dbWorkers, w.pin = pin ∧ w.is_active = true) →
          authenticateWorker false demoWorkers dbWorkers pin =
            AuthResult.err "Invalid PIN. Please try again.")) := by
  refine ⟨?_, ?_, ?_⟩
  · unfold authenticateWorker
    rw [if_pos rfl]
  · intro hpin
    constructor
    · rcases hfind : demoWorkers.find? (fun w => w.pin == pin) with _ | w
      · rw [authenticateWorker_demo _ _ _ hpin, hfind]
        constructor
        · intro hsucc
          exact absurd hsucc (by simp [AuthResult.success])
        · rintro ⟨w, hw, hwpin⟩
          have hnone := List.find?_eq_none.mp hfind w hw
          simp [hwpin] at hnone
      · rw [authenticateWorker_demo _ _ _ hpin, hfind]
        constructor
        · intro _
          exact ⟨w, List.mem_of_find?_eq_some hfind, by simpa using List.find?_some hfind⟩
        · intro _
          simp [AuthResult.success]
    · intro hno
      have hfind : demoWorkers.find? (fun w => w.pin == pin) = none := by
        rw [List.find?_eq_none]
        intro w hw
        simp only [beq_iff_eq]
        intro hwpin
        exact hno ⟨w, hw, hwpin⟩
      rw [authenticateWorker_demo _ _ _ hpin, hfind]
  · intro hpin
    have hlen := filter_pin_length_le dbWorkers pin hnodup
    constructor
    · rcases hl : single? (dbWorkers.filter (fun w => w.pin == pin && w.is_active)) with _ | w
      · rw [authenticateWorker_live _ _ _ hpin, hl]
        constructor
        · intro hsucc
          exact absurd hsucc (by simp [AuthResult.success])
        · rintro ⟨w, hw, hwpin, hact⟩
          have hmem : w ∈ dbWorkers.filter (fun w => w.pin == pin && w.is_active) :=
            List.mem_filter.mpr ⟨hw, by simp [hwpin, hact]⟩
          rw [(single?_eq_none_of_le hlen).mp hl] at hmem
          cases hmem
      · rw [authenticateWorker_live _ _ _ hpin, hl]
        constructor
        · intro _
          have hmem : w ∈ dbWorkers.filter (fun w => w.pin == pin && w.is_active) := by
            rw [single?_eq_some.mp hl]
            exact List.mem_singleton.mpr rfl
          rcases List.mem_filter.mp hmem with ⟨hw, hpred⟩
          simp only [Bool.and_eq_true, beq_iff_eq] at hpred
          exact ⟨w, hw, hpred.1, hpred.2⟩
        · intro _
          simp [AuthResult.success]
    · intro hno
      have hfil : dbWorkers.filter (fun w => w.pin == pin && w.is_active) = [] := by
        rw [List.filter_eq_nil_iff]
        intro w hw hpred
        simp only [Bool.and_eq_true, beq_iff_eq] at hpred
        exact hno ⟨w, hw, hpred.1, hpred.2⟩
      rw [authenticateWorker_live _ _ _ hpin, hfil]
      rfl

/-- Witness for C4: the seeded demo table and a one-row live table. -/
theorem authenticateWorker_spec_witness :
    ((([⟨"w-1", "123456", "John Smith", "worker", true⟩] :
      List DbWorker).map DbWorker.pin).Nodup) ∧
    (authenticateWorker true [⟨"demo-1", "123456", "John Smith", "worker"⟩]
        [⟨"w-1", "123456", "John Smith", "worker", true⟩] "000000" =
      AuthResult.ok "admin" "Administrator" "admin" true) :=
  ⟨by decide,
    (authenticateWorker_spec true [⟨"demo-1", "123456", "John Smith", "worker"⟩]
      [⟨"w-1", "123456", "John Smith", "worker", true⟩] "123456" (by decide)).1⟩

/-! ## Worker creation (`createWorker`)

Validation (`/^\d{6}$/.test(pin)`, `trimString fullName()`) runs before any store
interaction.  In demo mode the duplicate check is `DEMO_WORKERS.some`; in
live mode the insert hits the schema's `UNIQUE(pin)` constraint, whose
Postgres error code 23505 the code maps to the distinct PIN-in-use message
(any other insert failure maps to the generic message).  The store rows are
modelled as `Worker` records whose `id` is the freshly generated identifier
(`demo-${Date.now()}` in demo mode, the DB-assigned id in live mode). -/

/-- `/^\d{6}$/.test(pin)`. -/
def isSixDigitPin (s : String) : Bool :=
  s.length == 6 && s.data.all Char.isDigit

/-- JS `String.prototype.trim()`: strip leading and trailing whitespace. -/
def trimString (s : String) : String :=
  String.mk (((s.data.dropWhile Char.isWhitespace).reverse.dropWhile
    Char.isWhitespace).reverse)

inductive CreateResult where
  | ok (worker : Worker)
  | err (error : String)
deriving DecidableEq, Repr

structure CreateState where
  demoWorkers : List Worker
  dbRows : List Worker
deriving DecidableEq, Repr

/-- The generic insert-failure message, distinct from the PIN-in-use one. -/
def genericCreateError : String := "Failed to create worker. Please try again."

def createWorker (demoMode : Bool) (newId : String) (st : CreateState)
    (pin fullName role : String) : CreateResult × CreateState :=
  if ¬ isSixDigitPin pin then
    (.err "PIN must be exactly 6 digits.", st)
  else if trimString fullName = "" then
    (.err "Name is required.", st)
  else if demoMode then
    if st.demoWorkers.any (fun w => w.pin == pin) then
      (.err "This PIN is already in use.", st)
    else
      (.ok ⟨newId, pin, trimString fullName, role⟩,
        ⟨st.demoWorkers ++ [⟨newId, pin, trimString fullName, role⟩], st.dbRows⟩)
  else
    if st.dbRows.any (fun w => w.pin == pin) then
      (.err "This PIN is already in use.", st)
    else
      (.ok ⟨newId, pin, trimString fullName, role⟩,
        ⟨st.demoWorkers, st.dbRows ++ [⟨newId, pin, trimString fullName, role⟩]⟩)

theorem any_pin_iff (l : List Worker) (pin : String) :
    (l.any (fun w => w.pin == pin)) = true ↔ pin ∈ l.map Worker.pin := by
  rw [List.any_eq_true]
  constructor
  · rintro ⟨w, hw, hb⟩
    rw [beq_iff_eq] at hb
    exact hb ▸ List.mem_map_of_mem _ hw
  · intro hmem
    rcases List.mem_map.mp hmem with ⟨w, hw, hwpin⟩
    exact ⟨w, hw, by rw [beq_iff_eq, hwpin]⟩

/-- C5: `createWorker` rejects a malformed PIN and an empty (all-whitespace)
name before any store interaction (for every store state, the state is
unchanged and the validation message is returned); a duplicate PIN fails
with the distinct "PIN already in use" error (distinguishable from the
generic store failure); and creating two workers with the same PIN has the
first succeed and the second fail with the uniqueness-conflict error. -/
theorem createWorker_spec (demoMode : Bool) (newId newId2 : String) (st : CreateState)
    (pin fullName fullName2 role role2 : String) :
    (isSixDigitPin pin = false →
      createWorker demoMode newId st pin fullName role =
        (.err "PIN must be exactly 6 digits.", st))
    ∧ (isSixDigitPin pin = true → trimString fullName = "" →
      createWorker demoMode newId st pin fullName role = (.err "Name is required.", st))
    ∧ ("This PIN is already in use." ≠ genericCreateError
        ∧ "This PIN is already in use." ≠ "PIN must be exactly 6 digits."
        ∧ "This PIN is already in use." ≠ "Name is required.")
    ∧ (isSixDigitPin pin = true → trimString fullName ≠ "" →
        pin ∈ st.demoWorkers.map Worker.pin →
        createWorker true newId st pin fullName role =
          (.err "This PIN is already in use.", st))
    ∧ (isSixDigitPin pin = true → trimString fullName ≠ "" →
        pin ∈ st.dbRows.map Worker.pin →
        createWorker false newId st pin fullName role =
          (.err "This PIN is already in use.", st))
    ∧ (isSixDigitPin pin = true → trimString fullName ≠ "" → trimString fullName2 ≠ "" →
        pin ∉ st.demoWorkers.map Worker.pin →
        (createWorker true newId st pin fullName role).1 =
          CreateResult.ok ⟨newId, pin, trimString fullName, role⟩
        ∧ (createWorker true newId2 (createWorker true newId st pin fullName role).2
            pin fullName2 role2).1 =
          CreateResult.err "This PIN is already in use.")
    ∧ (isSixDigitPin pin = true → trimString fullName ≠ "" → trimString fullName2 ≠ "" →
        pin ∉ st.dbRows.map Worker.pin →
        (createWorker false newId st pin fullName role).1 =
          CreateResult.ok ⟨newId, pin, trimString fullName, role⟩
        ∧ (createWorker false newId2 (createWorker false newId st pin fullName role).2
            pin fullName2 role2).1 =
          CreateResult.err "This PIN is already in use.") := by
  refine ⟨?_, ?_, ⟨?_, ?_, ?_⟩, ?_, ?_, ?_, ?_⟩
  · intro hp
    unfold createWorker
    rw [if_pos (by simp [hp])]
  · intro hp hn
    unfold createWorker
    rw [if_neg (by simp [hp]), if_pos hn]
  · intro h
    exact absurd (congrArg String.length h) (by decide)
  · intro h
    exact absurd (congrArg String.length h) (by decide)
  · intro h
    exact absurd (congrArg String.length h) (by decide)
  · intro hp hn hdup
    unfold createWorker
    rw [if_neg (by simp [hp]), if_neg hn, if_pos rfl,
      if_pos ((any_pin_iff _ _).mpr hdup)]
  · intro hp hn hdup
    unfold createWorker
    rw [if_neg (by simp [hp]), if_neg hn, if_neg (by simp),
      if_pos ((any_pin_iff _ _).mpr hdup)]
  · intro hp hn hn2 hfresh
    have hfirst : createWorker true newId st pin fullName role =
        (.ok ⟨newId, pin, trimString fullName, role⟩,
          ⟨st.demoWorkers ++ [⟨newId, pin, trimString fullName, role⟩], st.dbRows⟩) := by
      unfold createWorker
      rw [if_neg (by simp [hp]), if_neg hn, if_pos rfl,
        if_neg (by
          rw [any_pin_iff]
          exact hfresh)]
    constructor
    · rw [hfirst]
    · rw [hfirst]
      unfold createWorker
      rw [if_neg (by simp [hp]), if_neg hn2, if_pos rfl,
        if_pos (by
          rw [any_pin_iff]
          simp)]
  · intro hp hn hn2 hfresh
    have hfirst : createWorker false newId st pin fullName role =
        (.ok ⟨newId, pin, trimString fullName, role⟩,
          ⟨st.demoWorkers, st.dbRows ++ [⟨newId, pin, trimString fullName, role⟩]⟩) := by
      unfold createWorker
      rw [if_neg (by simp [hp]), if_neg hn, if_neg (by simp),
        if_neg (by
          rw [any_pin_iff]
          exact hfresh)]
    constructor
    · rw [hfirst]
    · rw [hfirst]
      unfold createWorker
      rw [if_neg (by simp [hp]), if_neg hn2, if_neg (by simp),
        if_pos (by
          rw [any_pin_iff]
          simp)]

/-- Witness for C5: a fresh 6-digit PIN created twice in the empty demo store. -/
theorem createWorker_spec_witness :
    isSixDigitPin "123456" = true ∧
    (createWorker true "demo-1" ⟨[], []⟩ "123456" "John" "worker").1 =
      CreateResult.ok ⟨"demo-1", "123456", "John", "worker"⟩ ∧
    (createWorker true "demo-2" (createWorker true "demo-1" ⟨[], []⟩
        "123456" "John" "worker").2 "123456" "Jane" "worker").1 =
      CreateResult.err "This PIN is already in use." := by
  have h := (createWorker_spec true "demo-1" "demo-2" ⟨[], []⟩
    "123456" "John" "Jane" "worker" "worker").2.2.2.2.2.1
    (by decide) (by decide) (by decide) (by decide)
  exact ⟨by decide, by
    rw [h.1]
    rfl, h.2⟩

/-! ## Email verification codes (`sendVerificationCode` / `verifyCode`)

Demo branch: one in-memory entry per worker (`demoVerificationCodes`),
checked not-found → mismatch → expired, deleted on success.  Supabase
branch: a query for the most recent unused row matching the worker and the
submitted code — a mismatching code and a missing code both come back as an
empty result set, hence the same "Invalid code" error — then an expiry
check and an `update` marking the row used. -/

inductive VerifyResult where
  | ok : VerifyResult
  | err (error : String)
deriving DecidableEq, Repr

structure DemoCode where
  code : String
  expiresAt : Int
deriving DecidableEq, Repr

/-- `sendVerificationCode` (demo branch): store the code with a 10-minute
expiry (`new Date(Date.now() + 10 * 60 * 1000)`). -/
def sendVerificationCodeDemo (now : Int) (code : String) : DemoCode :=
  ⟨code, now + 10 * 60 * 1000⟩

/-- `verifyCode` (demo branch), acting on the worker's stored entry. -/
def verifyCodeDemo (entry : Option DemoCode) (now : Int) (code : String) :
    VerifyResult × Option DemoCode :=
  match entry with
  | none => (.err "No code found. Please request a new one.", none)
  | some stored =>
    if stored.code ≠ code then
      (.err "Invalid code. Please try again.", some stored)
    else if now > stored.expiresAt then
      (.err "Code expired. Please request a new one.", some stored)
    else
      (.ok, none)

structure CodeRow where
  id : Nat
  code : String
  expires_at : Int
  created_at : Int
  used_at : Option Int
deriving DecidableEq, Repr

/-- `order("created_at", { ascending: false })`. -/
def createdDescRow (a b : CodeRow) : Prop := b.created_at ≤ a.created_at

instance : DecidableRel createdDescRow := fun a b =>
  inferInstanceAs (Decidable (b.created_at ≤ a.created_at))

instance : IsTotal CodeRow createdDescRow := ⟨fun a b => le_total b.created_at a.created_at⟩

instance : IsTrans CodeRow createdDescRow := ⟨fun _ _ _ h1 h2 => le_trans h2 h1⟩

/-- The row selected by
`eq("code", code).is("used_at", null).order(created_at desc).limit(1).single()`. -/
def latestUnused (rows : List CodeRow) (code : String) : Option CodeRow :=
  ((rows.filter (fun r => r.code == code && r.used_at == none)).insertionSort
    createdDescRow).head?

/-- `verifyCode` (Supabase branch), acting on the worker's code rows. -/
def verifyCodeLive (rows : List CodeRow) (now : Int) (code : String) :
    VerifyResult × List CodeRow :=
  match latestUnused rows code with
  | none => (.err "Invalid code. Please try again.", rows)
  | some r =>
    if r.expires_at < now then
      (.err "Code expired. Please request a new one.", rows)
    else
      (.ok, rows.map (fun q => if q.id == r.id then
        ⟨q.id, q.code, q.expires_at, q.created_at, some now⟩ else q))

theorem latestUnused_mem {rows : List CodeRow} {code : String} {r : CodeRow}
    (h : latestUnused rows code = some r) :
    r ∈ rows ∧ r.code = code ∧ r.used_at = none := by
  unfold latestUnused at h
  have hmem := List.mem_of_mem_head? h
  rw [List.mem_insertionSort] at hmem
  rcases List.mem_filter.mp hmem with ⟨hrows, hpred⟩
  simp only [Bool.and_eq_true, beq_iff_eq] at hpred
  exact ⟨hrows, hpred.1, by simpa using hpred.2⟩

theorem verifyCodeDemo_some (stored : DemoCode) (now : Int) (code : String) :
    verifyCodeDemo (some stored) now code =
      (if stored.code ≠ code then
        (VerifyResult.err "Invalid code. Please try again.", some stored)
      else if now > stored.expiresAt then
        (VerifyResult.err "Code expired. Please request a new one.", some stored)
      else
        (VerifyResult.ok, none)) := rfl

theorem verifyCodeLive_none {rows : List CodeRow} {now : Int} {code : String}
    (h : latestUnused rows code = none) :
    verifyCodeLive rows now code =
      (VerifyResult.err "Invalid code. Please try again.", rows) := by
  unfold verifyCodeLive
  rw [h]

theorem verifyCodeLive_some {rows : List CodeRow} {now : Int} {code : String} {r : CodeRow}
    (h : latestUnused rows code = some r) :
    verifyCodeLive rows now code =
      (if r.expires_at < now then
        (VerifyResult.err "Code expired. Please request a new one.", rows)
      else
        (VerifyResult.ok, rows.map (fun q => if q.id == r.id then
          ⟨q.id, q.code, q.expires_at, q.created_at, some now⟩ else q))) := by
  unfold verifyCodeLive
  rw [h]

/-- C6 counterexample: in the Supabase branch, "no code on record" and
"code on record that does not match" return the *same* error string, so the
three failure cases do not carry three mutually distinct errors. -/
theorem verifyCode_errors_counterexample :
    (verifyCodeLive [] 0 "222222").1 = VerifyResult.err "Invalid code. Please try again."
    ∧ (verifyCodeLive [⟨1, "111111", 100, 0, none⟩] 0 "222222").1 =
      VerifyResult.err "Invalid code. Please try again."
    ∧ (⟨1, "111111", 100, 0, none⟩ : CodeRow).code ≠ "222222" := by
  refine ⟨rfl, rfl, by decide⟩

/-- C6 (amended): the demo branch fails with three mutually distinct errors
for not-found / mismatch / expired (a code sent at `t` expires once
`now > t + 10min`) and consumes the code on success, so replaying hits
not-found; the Supabase branch returns the *same* invalid-code error for
not-found and mismatch, a distinct expired error, and on success marks the
selected row used, so that when that row was the only unused row with the
submitted code, resubmitting the same code fails. -/
theorem verifyCode_amended :
    ((∀ (now : Int) (code : String), verifyCodeDemo none now code =
        (VerifyResult.err "No code found. Please request a new one.", none))
    ∧ (∀ (stored : DemoCode) (now : Int) (code : String), stored.code ≠ code →
        verifyCodeDemo (some stored) now code =
          (VerifyResult.err "Invalid code. Please try again.", some stored))
    ∧ (∀ (t now : Int) (code : String), now > t + 10 * 60 * 1000 →
        verifyCodeDemo (some (sendVerificationCodeDemo t code)) now code =
          (VerifyResult.err "Code expired. Please request a new one.",
            some (sendVerificationCodeDemo t code)))
    ∧ ("No code found. Please request a new one." ≠ "Invalid code. Please try again."
        ∧ "No code found. Please request a new one." ≠
            "Code expired. Please request a new one."
        ∧ "Invalid code. Please try again." ≠ "Code expired. Please request a new one.")
    ∧ (∀ (stored : DemoCode) (now : Int) (code : String),
        stored.code = code → ¬ now > stored.expiresAt →
        verifyCodeDemo (some stored) now code = (VerifyResult.ok, none)
        ∧ ∀ (now2 : Int) (code2 : String),
            (verifyCodeDemo none now2 code2).1 ≠ VerifyResult.ok))
    ∧ ((∀ (rows : List CodeRow) (now : Int) (code : String),
        latestUnused rows code = none →
        verifyCodeLive rows now code =
          (VerifyResult.err "Invalid code. Please try again.", rows))
    ∧ (∀ (rows : List CodeRow) (now : Int) (code : String) (r : CodeRow),
        latestUnused rows code = some r → r.expires_at < now →
        verifyCodeLive rows now code =
          (VerifyResult.err "Code expired. Please request a new one.", rows))
    ∧ (∀ (rows : List CodeRow) (now : Int) (code : String) (r : CodeRow),
        latestUnused rows code = some r → ¬ r.expires_at < now →
        (∀ q ∈ rows, q.code = code → q.used_at = none → q = r) →
        (verifyCodeLive rows now code).1 = VerifyResult.ok
        ∧ ∀ now2 : Int,
            (verifyCodeLive (verifyCodeLive rows now code).2 now2 code).1 ≠
              VerifyResult.ok)) := by
  refine ⟨⟨?_, ?_, ?_, ⟨?_, ?_, ?_⟩, ?_⟩, ?_, ?_, ?_⟩
  · intro now code
    rfl
  · intro stored now code hne
    rw [verifyCodeDemo_some, if_pos hne]
  · intro t now code hexp
    rw [verifyCodeDemo_some, if_neg (by simp [sendVerificationCodeDemo]),
      if_pos (by simpa [sendVerificationCodeDemo] using hexp)]
  · intro h
    exact absurd (congrArg String.length h) (by decide)
  · intro h
    exact absurd (congrArg String.length h) (by decide)
  · intro h
    exact absurd (congrArg String.length h) (by decide)
  · intro stored now code hcode hexp
    constructor
    · rw [verifyCodeDemo_some, if_neg (by simp [hcode]), if_neg hexp]
    · intro now2 code2 hok
      cases hok
  · intro rows now code hnone
    exact verifyCodeLive_none hnone
  · intro rows now code r hsome hexp
    rw [verifyCodeLive_some hsome, if_pos hexp]
  · intro rows now code r hsome hexp huniq
    have hstep : verifyCodeLive rows now code =
        (VerifyResult.ok, rows.map (fun q => if q.id == r.id then
          ⟨q.id, q.code, q.expires_at, q.created_at, some now⟩ else q)) := by
      rw [verifyCodeLive_some hsome, if_neg hexp]
    refine ⟨by rw [hstep], ?_⟩
    intro now2
    have hempty : latestUnused (verifyCodeLive rows now code).2 code = none := by
      rw [hstep]
      unfold latestUnused
      rw [show (rows.map (fun q => if q.id == r.id then
          (⟨q.id, q.code, q.expires_at, q.created_at, some now⟩ : CodeRow) else q)).filter
            (fun r => r.code == code && r.used_at == none) = [] from ?_]
      · rfl
      · rw [List.filter_eq_nil_iff]
        intro q' hq' hpred
        rcases List.mem_map.mp hq' with ⟨q, hq, hqeq⟩
        simp only [Bool.and_eq_true, beq_iff_eq] at hpred
        by_cases hid : (q.id == r.id) = true
        · rw [if_pos hid] at hqeq
          rw [← hqeq] at hpred
          simp at hpred
        · rw [if_neg hid] at hqeq
          subst hqeq
          have hqr := huniq q hq hpred.1 (by simpa using hpred.2)
          subst hqr
          simp at hid
    rw [verifyCodeLive_none hempty]
    intro hok
    cases hok

/-- Witness for C6 (amended): a stored demo code verified successfully. -/
theorem verifyCode_amended_witness :
    (⟨"123456", 600000⟩ : DemoCode).code = "123456" ∧
    verifyCodeDemo (some ⟨"123456", 600000⟩) 5 "123456" = (VerifyResult.ok, none) := by
  have h := (verifyCode_amended.1.2.2.2.2 ⟨"123456", 600000⟩ 5 "123456"
    (by decide) (by decide)).1
  exact ⟨rfl, h⟩

/-! ## Time-off requests (`src/lib/timeoff.ts`)

Demo branch: `DEMO_REQUESTS` is a process-local list; submission *prepends*
(`[newRequest, ...DEMO_REQUESTS]`), the demo listings filter without
re-sorting, and `updateDemoRequest` maps over the list replacing every row
whose `id` matches.  Supabase branch: the listings order by `created_at`
(ascending for "pending", descending with `limit(50)` for "all"), and
approve/deny issue `update(...).eq("id", requestId)` with no status guard —
the same row transformation as the demo update. -/

inductive RequestStatus where
  | pending : RequestStatus
  | approved : RequestStatus
  | denied : RequestStatus
deriving DecidableEq, Repr

structure TORequest where
  id : String
  worker_id : String
  type : String
  start_date : String
  end_date : String
  paid_hours : ℚ
  unpaid_hours : ℚ
  is_excused : Bool
  is_planned : Bool
  comments : Option String
  status : RequestStatus
  reviewed_by : Option String
  reviewed_at : Option String
  denial_reason : Option String
  created_at : String
deriving DecidableEq, Repr

/-- `createDemoRequest`: a fresh request in status `pending` with cleared
review fields (`id` is `demo-req-${Date.now()}`, `created_at` is now). -/
def createDemoRequest (newId now workerId rtype start_date end_date : String)
    (paid_hours unpaid_hours : ℚ) (comments : Option String) : TORequest :=
  ⟨newId, workerId, rtype, start_date, end_date, paid_hours, unpaid_hours,
    true, true, comments, .pending, none, none, none, now⟩

/-- `submitTimeOffRequest` (demo branch):
`DEMO_REQUESTS = [newRequest, ...DEMO_REQUESTS]`. -/
def submitTimeOffRequest (newId now : String) (reqs : List TORequest)
    (workerId rtype start_date end_date : String) (paid unpaid : ℚ)
    (comments : Option String) : TORequest × List TORequest :=
  let r := createDemoRequest newId now workerId rtype start_date end_date paid unpaid comments
  (r, r :: reqs)

/-- `getMyTimeOffRequests` (demo branch): filter by worker, stored order. -/
def getMyTimeOffRequests (reqs : List TORequest) (workerId : String) : List TORequest :=
  reqs.filter (fun r => r.worker_id == workerId)

/-- `order("created_at", { ascending: true })`. -/
def createdAsc (a b : TORequest) : Prop := a.created_at ≤ b.created_at

/-- `order("created_at", { ascending: false })`. -/
def createdDesc (a b : TORequest) : Prop := b.created_at ≤ a.created_at

instance : DecidableRel createdAsc := fun a b =>
  inferInstanceAs (Decidable (a.created_at ≤ b.created_at))

instance : DecidableRel createdDesc := fun a b =>
  inferInstanceAs (Decidable (b.created_at ≤ a.created_at))

instance : IsTotal TORequest createdAsc := ⟨fun a b => le_total a.created_at b.created_at⟩

instance : IsTrans TORequest createdAsc := ⟨fun _ _ _ h1 h2 => le_trans h1 h2⟩

instance : IsTotal TORequest createdDesc := ⟨fun a b => le_total b.created_at a.created_at⟩

instance : IsTrans TORequest createdDesc := ⟨fun _ _ _ h1 h2 => le_trans h2 h1⟩

/-- `getMyTimeOffRequests` (Supabase branch): filter by worker, newest first. -/
def getMyTimeOffRequestsLive (reqs : List TORequest) (workerId : String) : List TORequest :=
  (reqs.filter (fun r => r.worker_id == workerId)).insertionSort createdDesc

/-- `getAllPendingRequests` (demo branch): filter by status, stored order
(no re-sort). -/
def getAllPendingRequestsDemo (reqs : List TORequest) : List TORequest :=
  reqs.filter (fun r => r.status == RequestStatus.pending)

/-- `getAllPendingRequests` (Supabase branch): pending, oldest first. -/
def getAllPendingRequestsLive (reqs : List TORequest) : List TORequest :=
  (reqs.filter (fun r => r.status == RequestStatus.pending)).insertionSort createdAsc

/-- `getAllTimeOffRequests` (demo branch): the whole stored list, uncapped. -/
def getAllTimeOffRequestsDemo (reqs : List TORequest) : List TORequest :=
  reqs

/-- `getAllTimeOffRequests` (Supabase branch): newest first, `limit(50)`. -/
def getAllTimeOffRequestsLive (reqs : List TORequest) : List TORequest :=
  (reqs.insertionSort createdDesc).take 50

/-- `approveRequest`: set status/review fields on every row whose `id`
matches (`updateDemoRequest` in demo mode, `update(...).eq("id", ...)` in
Supabase mode); the current status is not consulted. -/
def approveRequest (now : String) (reqs : List TORequest) (requestId managerId : String) :
    List TORequest :=
  reqs.map (fun r => if r.id == requestId then
    { r with
      status := .approved
      reviewed_by := some managerId
      reviewed_at := some now }
    else r)

/-- `denyRequest`: like `approveRequest`, additionally storing
`denial_reason = reason || null`. -/
def denyRequest (now : String) (reqs : List TORequest) (requestId managerId : String)
    (reason : Option String) : List TORequest :=
  reqs.map (fun r => if r.id == requestId then
    { r with
      status := .denied
      reviewed_by := some managerId
      reviewed_at := some now
      denial_reason := reason }
    else r)

/-- Two demo submissions, one day apart: the stored list is newest-first. -/
def demoTwoSubmissions : List TORequest :=
  (submitTimeOffRequest "demo-req-2" "2024-01-02T00:00:00Z"
    (submitTimeOffRequest "demo-req-1" "2024-01-01T00:00:00Z" [] "w1" "vacation"
      "2024-02-01" "2024-02-02" 8 0 none).2
    "w1" "vacation" "2024-02-05" "2024-02-06" 8 0 none).2

/-- C7 counterexample: in demo mode `getAllPendingRequests` merely filters
the stored list, which submission keeps newest-first, so with two pending
requests the "pending" listing is *not* ordered oldest first. -/
theorem timeOffListings_counterexample :
    (getAllPendingRequestsDemo demoTwoSubmissions).map TORequest.created_at =
      ["2024-01-02T00:00:00Z", "2024-01-01T00:00:00Z"]
    ∧ (∀ r ∈ demoTwoSubmissions, r.status = RequestStatus.pending)
    ∧ ¬ ((getAllPendingRequestsDemo demoTwoSubmissions).map
        TORequest.created_at).Sorted (· ≤ ·) := by
  refine ⟨rfl, ?_, ?_⟩
  · intro r hr
    rcases List.mem_cons.mp hr with rfl | hr2
    · rfl
    · rcases List.mem_singleton.mp hr2 with rfl
      rfl
  · intro hs
    rw [show (getAllPendingRequestsDemo demoTwoSubmissions).map TORequest.created_at =
      ["2024-01-02T00:00:00Z", "2024-01-01T00:00:00Z"] from rfl] at hs
    have h1 := (List.sorted_cons.mp hs).1 "2024-01-01T00:00:00Z" (List.mem_singleton.mpr rfl)
    exact absurd (String.le_iff_toList_le.mp h1) (by decide)

/-- C7 (amended): "mine" returns exactly the given worker's requests in both
branches; in the Supabase branch "pending" is exactly the pending requests
ordered oldest first and "all" is ordered most recent first and capped at 50;
in the demo branch "pending" filters the stored list without re-sorting
(preserving its newest-first order) and "all" returns the whole stored list
without any cap. -/
theorem timeOffListings_amended :
    (∀ (reqs : List TORequest) (wid : String) (r : TORequest),
      r ∈ getMyTimeOffRequests reqs wid ↔ r ∈ reqs ∧ r.worker_id = wid)
    ∧ (∀ (reqs : List TORequest) (wid : String) (r : TORequest),
      r ∈ getMyTimeOffRequestsLive reqs wid ↔ r ∈ reqs ∧ r.worker_id = wid)
    ∧ (∀ reqs : List TORequest,
        (getAllPendingRequestsLive reqs).Sorted createdAsc
        ∧ ∀ r : TORequest, r ∈ getAllPendingRequestsLive reqs ↔
            r ∈ reqs ∧ r.status = RequestStatus.pending)
    ∧ (∀ reqs : List TORequest,
        (getAllTimeOffRequestsLive reqs).Sorted createdDesc
        ∧ (getAllTimeOffRequestsLive reqs).length ≤ 50
        ∧ ∀ r ∈ getAllTimeOffRequestsLive reqs, r ∈ reqs)
    ∧ (∀ reqs : List TORequest,
        (getAllPendingRequestsDemo reqs).Sublist reqs
        ∧ ∀ r : TORequest, r ∈ getAllPendingRequestsDemo reqs ↔
            r ∈ reqs ∧ r.status = RequestStatus.pending)
    ∧ (∀ reqs : List TORequest, getAllTimeOffRequestsDemo reqs = reqs) := by
  refine ⟨?_, ?_, ?_, ?_, ?_, ?_⟩
  · intro reqs wid r
    simp [getMyTimeOffRequests, List.mem_filter, beq_iff_eq]
  · intro reqs wid r
    simp [getMyTimeOffRequestsLive, List.mem_insertionSort, List.mem_filter, beq_iff_eq]
  · intro reqs
    refine ⟨List.sorted_insertionSort createdAsc _, ?_⟩
    intro r
    simp [getAllPendingRequestsLive, List.mem_insertionSort, List.mem_filter, beq_iff_eq]
  · intro reqs
    refine ⟨?_, ?_, ?_⟩
    · exact (List.sorted_insertionSort createdDesc reqs).sublist (List.take_sublist _ _)
    · exact List.length_take_le _ _
    · intro r hr
      have hr2 := List.take_subset _ _ hr
      rwa [List.mem_insertionSort] at hr2
  · intro reqs
    refine ⟨List.filter_sublist _, ?_⟩
    intro r
    simp [getAllPendingRequestsDemo, List.mem_filter, beq_iff_eq]
  · intro reqs
    rfl

/-- Witness for C7 (amended): the demo "all" listing on a one-element store. -/
theorem timeOffListings_amended_witness :
    getAllTimeOffRequestsDemo
      [(⟨"demo-req-1", "w1", "vacation", "2024-02-01", "2024-02-02", 8, 0, true, true,
        none, RequestStatus.pending, none, none, none, "2024-01-01T00:00:00Z"⟩ :
          TORequest)] =
      [⟨"demo-req-1", "w1", "vacation", "2024-02-01", "2024-02-02", 8, 0, true, true,
        none, RequestStatus.pending, none, none, none, "2024-01-01T00:00:00Z"⟩] :=
  timeOffListings_amended.2.2.2.2.2
    [⟨"demo-req-1", "w1", "vacation", "2024-02-01", "2024-02-02", 8, 0, true, true,
      none, RequestStatus.pending, none, none, none, "2024-01-01T00:00:00Z"⟩]

theorem approveRequest_mem {now : String} {reqs : List TORequest} {rid mid : String}
    {q : TORequest} (hq : q ∈ approveRequest now reqs rid mid) :
    (q.id = rid →
      q.status = RequestStatus.approved ∧ q.reviewed_by = some mid
        ∧ q.reviewed_at = some now)
    ∧ (q.id ≠ rid → q ∈ reqs) := by
  rcases List.mem_map.mp hq with ⟨p, hp, hpq⟩
  by_cases hb : (p.id == rid) = true
  · rw [if_pos hb] at hpq
    subst hpq
    constructor
    · intro _
      exact ⟨rfl, rfl, rfl⟩
    · intro hne
      exact absurd (beq_iff_eq.mp hb) hne
  · rw [if_neg hb] at hpq
    subst hpq
    constructor
    · intro hEq
      exact absurd (beq_iff_eq.mpr hEq) hb
    · intro _
      exact hp

theorem denyRequest_mem {now : String} {reqs : List TORequest} {rid mid : String}
    {reason : Option String} {q : TORequest}
    (hq : q ∈ denyRequest now reqs rid mid reason) :
    (q.id = rid →
      q.status = RequestStatus.denied ∧ q.reviewed_by = some mid
        ∧ q.reviewed_at = some now ∧ q.denial_reason = reason)
    ∧ (q.id ≠ rid → q ∈ reqs) := by
  rcases List.mem_map.mp hq with ⟨p, hp, hpq⟩
  by_cases hb : (p.id == rid) = true
  · rw [if_pos hb] at hpq
    subst hpq
    constructor
    · intro _
      exact ⟨rfl, rfl, rfl, rfl⟩
    · intro hne
      exact absurd (beq_iff_eq.mp hb) hne
  · rw [if_neg hb] at hpq
    subst hpq
    constructor
    · intro hEq
      exact absurd (beq_iff_eq.mpr hEq) hb
    · intro _
      exact hp

/-- C8: a request created in status pending, once `approveRequest`-ed, has
status approved with non-null `reviewed_by`/`reviewed_at`, and no request
with its id appears in either branch of the "pending" listing afterwards. -/
theorem approveRequest_spec :
    (∀ (newId now workerId rtype sdate edate : String) (paid unpaid : ℚ)
        (comments : Option String) (reqs : List TORequest),
      (submitTimeOffRequest newId now reqs workerId rtype sdate edate paid unpaid
        comments).1.status = RequestStatus.pending)
    ∧ (∀ (now : String) (reqs : List TORequest) (rid mid : String),
        ∀ q ∈ approveRequest now reqs rid mid, q.id = rid →
          q.status = RequestStatus.approved ∧ q.reviewed_by = some mid
            ∧ q.reviewed_at = some now)
    ∧ (∀ (now : String) (reqs : List TORequest) (rid mid : String) (q : TORequest),
        q ∈ reqs → q.id = rid →
          ({ q with
            status := RequestStatus.approved
            reviewed_by := some mid
            reviewed_at := some now } : TORequest) ∈ approveRequest now reqs rid mid)
    ∧ (∀ (now : String) (reqs : List TORequest) (rid mid : String),
        ∀ q ∈ getAllPendingRequestsDemo (approveRequest now reqs rid mid), q.id ≠ rid)
    ∧ (∀ (now : String) (reqs : List TORequest) (rid mid : String),
        ∀ q ∈ getAllPendingRequestsLive (approveRequest now reqs rid mid), q.id ≠ rid) := by
  refine ⟨?_, ?_, ?_, ?_, ?_⟩
  · intro newId now workerId rtype sdate edate paid unpaid comments reqs
    rfl
  · intro now reqs rid mid q hq hid
    exact (approveRequest_mem hq).1 hid
  · intro now reqs rid mid q hq hid
    refine List.mem_map.mpr ⟨q, hq, ?_⟩
    rw [if_pos (by simp [hid])]
  · intro now reqs rid mid q hq hid
    rcases List.mem_filter.mp hq with ⟨hmem, hstat⟩
    have := ((approveRequest_mem hmem).1 hid).1
    rw [this] at hstat
    simp at hstat
  · intro now reqs rid mid q hq hid
    rw [getAllPendingRequestsLive, List.mem_insertionSort] at hq
    rcases List.mem_filter.mp hq with ⟨hmem, hstat⟩
    have := ((approveRequest_mem hmem).1 hid).1
    rw [this] at hstat
    simp at hstat

/-- Witness for C8: a freshly submitted request is pending. -/
theorem approveRequest_spec_witness :
    (submitTimeOffRequest "demo-req-1" "2024-01-01T00:00:00Z" [] "w1" "vacation"
      "2024-02-01" "2024-02-02" 8 0 none).1.status = RequestStatus.pending :=
  approveRequest_spec.1 "demo-req-1" "2024-01-01T00:00:00Z" "w1" "vacation"
    "2024-02-01" "2024-02-02" 8 0 none []

/-- C9 counterexample: `approveRequest` has no status guard, so a *denied*
(terminal) request is re-labelled approved by a later `approveRequest`. -/
theorem timeOffTransitions_counterexample :
    (⟨"req-1", "w1", "vacation", "2024-02-01", "2024-02-02", 8, 0, true, true, none,
      RequestStatus.denied, some "mgr-0", some "2024-01-05T00:00:00Z", some "busy",
      "2024-01-01T00:00:00Z"⟩ : TORequest).status = RequestStatus.denied
    ∧ (approveRequest "2024-01-06T00:00:00Z"
        [⟨"req-1", "w1", "vacation", "2024-02-01", "2024-02-02", 8, 0, true, true, none,
          RequestStatus.denied, some "mgr-0", some "2024-01-05T00:00:00Z", some "busy",
          "2024-01-01T00:00:00Z"⟩] "req-1" "mgr-1").map TORequest.status =
      [RequestStatus.approved] :=
  ⟨rfl, rfl⟩

/-- C9 (amended): requests are created pending and submission never alters
existing requests; `approveRequest` / `denyRequest` set every matching-id
request to approved / denied and leave the others untouched — but they do
not consult the current status, so the pending → approved and
pending → denied transitions are not the only ones: a request already in a
terminal state is still re-labelled by a later approve or deny. -/
theorem timeOffTransitions_amended :
    (∀ (newId now : String) (reqs : List TORequest)
        (workerId rtype sdate edate : String) (paid unpaid : ℚ)
        (comments : Option String),
      (submitTimeOffRequest newId now reqs workerId rtype sdate edate paid unpaid
        comments).1.status = RequestStatus.pending
      ∧ ∀ q ∈ reqs, q ∈ (submitTimeOffRequest newId now reqs workerId rtype sdate edate
          paid unpaid comments).2)
    ∧ (∀ (now : String) (reqs : List TORequest) (rid mid : String),
        ∀ q ∈ approveRequest now reqs rid mid,
          (q.id = rid → q.status = RequestStatus.approved) ∧ (q.id ≠ rid → q ∈ reqs))
    ∧ (∀ (now : String) (reqs : List TORequest) (rid mid : String)
        (reason : Option String),
        ∀ q ∈ denyRequest now reqs rid mid reason,
          (q.id = rid → q.status = RequestStatus.denied) ∧ (q.id ≠ rid → q ∈ reqs))
    ∧ (∀ (now : String) (reqs : List TORequest) (rid mid : String) (q : TORequest),
        q ∈ reqs → q.id = rid → q.status = RequestStatus.denied →
          ({ q with
            status := RequestStatus.approved
            reviewed_by := some mid
            reviewed_at := some now } : TORequest) ∈ approveRequest now reqs rid mid) := by
  refine ⟨?_, ?_, ?_, ?_⟩
  · intro newId now reqs workerId rtype sdate edate paid unpaid comments
    exact ⟨rfl, fun q hq => List.mem_cons_of_mem _ hq⟩
  · intro now reqs rid mid q hq
    exact ⟨fun hid => ((approveRequest_mem hq).1 hid).1, (approveRequest_mem hq).2⟩
  · intro now reqs rid mid reason q hq
    exact ⟨fun hid => ((denyRequest_mem hq).1 hid).1, (denyRequest_mem hq).2⟩
  · intro now reqs rid mid q hq hid _
    refine List.mem_map.mpr ⟨q, hq, ?_⟩
    rw [if_pos (by simp [hid])]

/-- Witness for C9 (amended): submission on the empty store. -/
theorem timeOffTransitions_amended_witness :
    (submitTimeOffRequest "demo-req-9" "2024-03-01T00:00:00Z" [] "w2" "sick"
      "2024-03-02" "2024-03-03" 4 4 none).1.status = RequestStatus.pending :=
  (timeOffTransitions_amended.1 "demo-req-9" "2024-03-01T00:00:00Z" [] "w2" "sick"
    "2024-03-02" "2024-03-03" 4 4 none).1

/-! ## Clock-out (`clockOut`)

`clockOut(workerId, clockInTime)` computes the elapsed time from the
caller-supplied `clockInTime` (not re-derived from the store): when it is
null, `timeWorkedMs` stays `0` and the formatted string stays the literal
`"Unknown"`.  The demo branch always succeeds; the Supabase branch succeeds
iff the OUT-punch insert succeeds (`insertOk`), failing with a generic
message otherwise.  `nowMs`/`nowIso` stand for `new Date()` and its
`getTime()`/`toISOString()` views; `getTime` parses the stored ISO string. -/

inductive ClockOutResult where
  | ok (punchType : PunchType) (timestamp : String) (timeWorked : String)
      (timeWorkedMs : Int)
  | err (error : String)
deriving DecidableEq, Repr

def clockOut (demoMode : Bool) (insertOk : Bool) (nowMs : Int) (nowIso : String)
    (getTime : String → Int) (clockInTime : Option String) : ClockOutResult :=
  let timeWorkedMs : Int :=
    match clockInTime with
    | none => 0
    | some t => nowMs - getTime t
  let timeWorkedFormatted : String :=
    match clockInTime with
    | none => "Unknown"
    | some t => formatDuration (nowMs - getTime t)
  if demoMode then
    .ok PunchType.OUT nowIso timeWorkedFormatted timeWorkedMs
  else if insertOk then
    .ok PunchType.OUT nowIso timeWorkedFormatted timeWorkedMs
  else
    .err "Failed to clock out. Please try again."

/-- C10: `clockOut` called with a null `lastClockInTime` still succeeds
(provided the punch insert succeeds): it records the OUT punch and returns
`timeWorkedMs = 0` together with the literal string `"Unknown"` as
`timeWorked` instead of a formatted duration; the elapsed time is computed
from the caller-supplied timestamp only when it is non-null. -/
theorem clockOut_spec (demoMode insertOk : Bool) (nowMs : Int) (nowIso : String)
    (getTime : String → Int) (t : String)
    (hok : demoMode = true ∨ insertOk = true) :
    clockOut demoMode insertOk nowMs nowIso getTime none =
      ClockOutResult.ok PunchType.OUT nowIso "Unknown" 0
    ∧ clockOut demoMode insertOk nowMs nowIso getTime (some t) =
      ClockOutResult.ok PunchType.OUT nowIso (formatDuration (nowMs - getTime t))
        (nowMs - getTime t) := by
  rcases hok with h | h
  · subst h
    exact ⟨rfl, rfl⟩
  · by_cases hd : demoMode = true
    · subst hd
      exact ⟨rfl, rfl⟩
    · have hd' : demoMode = false := by
        cases demoMode
        · rfl
        · exact absurd rfl hd
      subst hd'
      subst h
      exact ⟨rfl, rfl⟩

/-- Witness for C10: a live-mode clock-out with a successful insert. -/
theorem clockOut_spec_witness :
    clockOut false true 3600000 "2024-01-01T01:00:00Z" (fun _ => 0) none =
      ClockOutResult.ok PunchType.OUT "2024-01-01T01:00:00Z" "Unknown" 0
    ∧ clockOut false true 3600000 "2024-01-01T01:00:00Z" (fun _ => 0)
        (some "2024-01-01T00:00:00Z") =
      ClockOutResult.ok PunchType.OUT "2024-01-01T01:00:00Z"
        (formatDuration (3600000 - (fun _ => (0 : Int)) "2024-01-01T00:00:00Z"))
        (3600000 - (fun _ => (0 : Int)) "2024-01-01T00:00:00Z") :=
  clockOut_spec false true 3600000 "2024-01-01T01:00:00Z" (fun _ => 0)
    "2024-01-01T00:00:00Z" (Or.inr rfl)

end Rome
